import Mathlib

/-!
Shallow embedding of the connection-comparison logic of
`src/components/ConnectionList.svelte` (the Selection Manager and the
Metadata Differ of the spec).

Modelling conventions:
* JavaScript scalar values are modelled by their `String(·)` coercion,
  which is the only way the code ever inspects them; presence of a value
  (`!== undefined`) is modelled by `Option String`.
* A record's `params` property can be any JavaScript value, modelled by
  the inductive `Params` below.  `Object.keys(p || {})` and `p?.[k]` are
  embedded by `keysOf` and `plookup`.  For a primitive string params,
  `Object.keys` enumerates its character indices and indexing reads the
  characters and the own property `length`; properties inherited from
  prototypes (methods such as `toString`) are outside the model.
* JavaScript's stable `Array.prototype.sort` with the comparator
  `(a, b) => a.property.localeCompare(b.property)` is modelled by
  `List.insertionSort` over the relation `rowLe` (comparator result ≤ 0).
  The locale comparison itself is modelled by the total order
  `localeCompare` below (codepoint order): a fixed, antisymmetric
  comparator standing in for the locale-dependent one.
-/

/-- Classification of one comparison row (`status` in the source). -/
inductive Status where
  | same
  | changed
  | added
  | removed
deriving DecidableEq, Repr

/-- One entry pushed onto `comparison` in `compareMetadata`. -/
structure ComparisonRow where
  property : String
  value1 : String
  value2 : String
  status : Status
deriving DecidableEq, Repr

/-- The JavaScript value stored in a record's `params` property. -/
inductive Params where
  | undef
  | null
  | obj (fields : List (String × String))
  | str (s : String)
  | num (n : Int)
  | bool (b : Bool)
deriving DecidableEq, Repr

/-- Embedding of `Object.keys(p || {})`: a falsy value is replaced by `{}`; `Object.keys`
of a number or boolean is empty, of a string it is the list of character
indices, of an object the list of own keys. -/
def keysOf : Params → List String
  | .undef => []
  | .null => []
  | .obj fields => fields.map (fun p => p.1)
  | .str s => (List.range s.length).map (fun i => toString i)
  | .num _ => []
  | .bool _ => []

/-- Embedding of `p?.[k]`: optional chaining yields `undefined` on nullish `p`; an object
is looked up by key; a primitive string exposes its character indices and
its `length` own property; other primitives have no own properties. -/
def plookup : Params → String → Option String
  | .undef, _ => none
  | .null, _ => none
  | .obj fields, k => (fields.find? (fun p => p.1 == k)).map (fun p => p.2)
  | .str s, k =>
      if k == "length" then some (toString s.length)
      else (s.data.enum.find? (fun p => toString p.1 == k)).map
        (fun p => String.singleton p.2)
  | .num _, _ => none
  | .bool _, _ => none

/-- A connection record: its own enumerable properties other than `params`
(as an ordered association list of coerced scalar values) together with its
`params` property. -/
structure Record where
  topLevel : List (String × String)
  params : Params
deriving DecidableEq, Repr

/-- Property access `o[k]` on the non-`params` part of a record. -/
def lookupTop (l : List (String × String)) (k : String) : Option String :=
  (l.find? (fun p => p.1 == k)).map (fun p => p.2)

/-- Embedding of `Object.keys(conn).filter(key => key !== 'params')`. -/
def topKeys (c : Record) : List String :=
  (c.topLevel.map (fun p => p.1)).filter (fun k => k != "params")

/-- Embedding of `conn.id` (the record's `id` property, `undefined` when absent). -/
def recId (c : Record) : Option String :=
  lookupTop c.topLevel "id"

/-- Value extraction per key: the three allowlisted keys are read from the
top level of the record, every other key through `params` (lines 79–85 of
the source). -/
def extract (c : Record) (k : String) : Option String :=
  if k == "id" || k == "createdAt" || k == "updatedAt" then
    lookupTop c.topLevel k
  else
    plookup c.params k

/-- Insertion-order deduplication, as performed by `new Set([...])`:
an element is kept at its first occurrence and skipped when already seen. -/
def dedupAux : List String → List String → List String
  | [], _ => []
  | a :: l, seen => if a ∈ seen then dedupAux l seen else a :: dedupAux l (a :: seen)

/-- Embedding of `[...new Set(l)]`. -/
def dedupKeys (l : List String) : List String :=
  dedupAux l []

/-- The `allKeys` set of `compareMetadata` (lines 68–73): keys of both
`params` objects followed by the non-`params` top-level keys of both
records, in insertion order, deduplicated. -/
def allKeys (c1 c2 : Record) : List String :=
  dedupKeys (keysOf c1.params ++ keysOf c2.params ++ topKeys c1 ++ topKeys c2)

/-- Lexicographic codepoint order on character lists. -/
def strLt : List Char → List Char → Bool
  | [], [] => false
  | [], _ :: _ => true
  | _ :: _, [] => false
  | a :: s, b :: t =>
      if a < b then true else if b < a then false else strLt s t

/-- The comparator `a.localeCompare(b)` restricted to its sign, with the
locale order modelled by codepoint order (a fixed total order standing in
for the locale-dependent one). -/
def localeCompare (a b : String) : Int :=
  if strLt a.data b.data then -1 else if strLt b.data a.data then 1 else 0

/-- Keys `s`, `t` in comparator order (`s.localeCompare(t) <= 0`). -/
def keyLe (s t : String) : Prop := localeCompare s t ≤ 0

/-- Rows in comparator order: the sort relation used by line 110. -/
def rowLe (x y : ComparisonRow) : Prop := keyLe x.property y.property

instance : DecidableRel keyLe := fun s t =>
  show Decidable (localeCompare s t ≤ 0) from inferInstance

instance : DecidableRel rowLe := fun x y =>
  show Decidable (keyLe x.property y.property) from inferInstance

/-- The body of the `allKeys.forEach` loop (lines 75–107): extract both
values, coerce to display strings, classify. -/
def mkRow (conn1 conn2 : Record) (k : String) : ComparisonRow :=
  let value1 := extract conn1 k
  let value2 := extract conn2 k
  let str1 := match value1 with | some v => v | none => "N/A"
  let str2 := match value2 with | some v => v | none => "N/A"
  let status :=
    if value1 = none ∧ value2 ≠ none then Status.added
    else if value1 ≠ none ∧ value2 = none then Status.removed
    else if str1 ≠ str2 then Status.changed
    else Status.same
  ⟨k, str1, str2, status⟩

/-- Embedding of `compareMetadata` on two records (lines 64–110): one row per key of
`allKeys`, sorted by the `property` comparator. -/
def compareMetadata (conn1 conn2 : Record) : List ComparisonRow :=
  List.insertionSort rowLe ((allKeys conn1 conn2).map (mkRow conn1 conn2))

/-- The full `compareMetadata` including the guard of line 62: an empty
result unless exactly two records are selected. -/
def compareSelected : List Record → List ComparisonRow
  | [conn1, conn2] => compareMetadata conn1 conn2
  | _ => []

/-- Embedding of `addToCompare` (lines 24–31): with two or more selected, keep the
second and the new record; otherwise append. -/
def addToCompare (sel : List Record) (connection : Record) : List Record :=
  if h : sel.length ≥ 2 then [sel.get ⟨1, by omega⟩, connection]
  else sel ++ [connection]

/-- Embedding of `removeFromCompare` (lines 37–39). -/
def removeFromCompare (sel : List Record) (connectionId : Option String) : List Record :=
  sel.filter (fun conn => recId conn != connectionId)

/-- Embedding of `clearSelection` (lines 44–46). -/
def clearSelection : List Record := []

/-- Embedding of `isSelected` (lines 53–55). -/
def isSelected (sel : List Record) (connectionId : Option String) : Bool :=
  sel.any (fun conn => recId conn == connectionId)

/-- A user action on the selection. -/
inductive Op where
  | add (connection : Record)
  | remove (connectionId : Option String)
  | clear

/-- Effect of one user action on the selection state. -/
def step (sel : List Record) : Op → List Record
  | .add c => addToCompare sel c
  | .remove cid => removeFromCompare sel cid
  | .clear => clearSelection

/-- Selection reached from the empty initial state by a sequence of actions. -/
def runOps (ops : List Op) : List Record :=
  ops.foldl step []

/-- The no-duplicate-`id` invariant of §3 of the spec. -/
@[reducible] def NoDupIds (sel : List Record) : Prop :=
  (sel.map recId).Nodup

/-- The caller discipline of §4.1: an `add` is only ever issued for a
record whose `id` is not currently selected (the UI elides the control
otherwise). -/
def disciplined : List Record → List Op → Bool
  | _, [] => true
  | sel, Op.add c :: ops =>
      !isSelected sel (recId c) && disciplined (step sel (Op.add c)) ops
  | sel, Op.remove cid :: ops => disciplined (step sel (Op.remove cid)) ops
  | sel, Op.clear :: ops => disciplined (step sel Op.clear) ops

/-- Record `a` of the worked example in §8 of the spec. -/
def recA : Record := ⟨[("id", "1")], .obj [("type", "pipe")]⟩

/-- Record `b` of the worked example in §8 of the spec. -/
def recB : Record := ⟨[("id", "2")], .obj [("type", "pipe"), ("label", "X")]⟩

/-! ### Order lemmas for the modelled comparator -/

theorem strLt_cons (a b : Char) (s t : List Char) :
    strLt (a :: s) (b :: t) =
      if a < b then true else if b < a then false else strLt s t := rfl

theorem strLt_asymm : ∀ s t : List Char, strLt s t = true → strLt t s = false
  | [], [] => fun h => Bool.noConfusion h
  | [], _ :: _ => fun _ => rfl
  | _ :: _, [] => fun h => Bool.noConfusion h
  | a :: s, b :: t => by
      intro h
      rw [strLt_cons] at h ⊢
      by_cases h1 : a < b
      · rw [if_neg (lt_asymm h1), if_pos h1]
      · by_cases h2 : b < a
        · rw [if_neg h1, if_pos h2] at h
          exact Bool.noConfusion h
        · rw [if_neg h1, if_neg h2] at h
          rw [if_neg h2, if_neg h1]
          exact strLt_asymm s t h

theorem strLt_trans :
    ∀ s t u : List Char, strLt s t = true → strLt t u = true → strLt s u = true
  | [], [], _ => fun h _ => Bool.noConfusion h
  | [], _ :: _, [] => fun _ h => Bool.noConfusion h
  | [], _ :: _, _ :: _ => fun _ _ => rfl
  | _ :: _, [], _ => fun h _ => Bool.noConfusion h
  | _ :: _, _ :: _, [] => fun _ h => Bool.noConfusion h
  | a :: s, b :: t, c :: u => by
      intro hst htu
      rw [strLt_cons] at hst htu ⊢
      by_cases h1 : a < b
      · by_cases h2 : b < c
        · rw [if_pos (lt_trans h1 h2)]
        · by_cases h4 : c < b
          · rw [if_neg h2, if_pos h4] at htu
            exact Bool.noConfusion htu
          · have hbc : b = c := le_antisymm (le_of_not_lt h4) (le_of_not_lt h2)
            rw [← hbc, if_pos h1]
      · by_cases h3 : b < a
        · rw [if_neg h1, if_pos h3] at hst
          exact Bool.noConfusion hst
        · have hab : a = b := le_antisymm (le_of_not_lt h3) (le_of_not_lt h1)
          rw [if_neg h1, if_neg h3] at hst
          by_cases h2 : b < c
          · rw [hab, if_pos h2]
          · by_cases h4 : c < b
            · rw [if_neg h2, if_pos h4] at htu
              exact Bool.noConfusion htu
            · have hbc : b = c := le_antisymm (le_of_not_lt h4) (le_of_not_lt h2)
              rw [if_neg h2, if_neg h4] at htu
              rw [hab, hbc] at *
              rw [if_neg (lt_irrefl c), if_neg (lt_irrefl c)]
              exact strLt_trans s t u hst htu

theorem strLt_connex :
    ∀ s t : List Char, strLt s t = false → strLt t s = false → s = t
  | [], [] => fun _ _ => rfl
  | [], _ :: _ => fun h _ => Bool.noConfusion h
  | _ :: _, [] => fun _ h => Bool.noConfusion h
  | a :: s, b :: t => by
      intro hst hts
      rw [strLt_cons] at hst hts
      by_cases h1 : a < b
      · rw [if_pos h1] at hst
        exact Bool.noConfusion hst
      · by_cases h2 : b < a
        · rw [if_pos h2] at hts
          exact Bool.noConfusion hts
        · have hab : a = b := le_antisymm (le_of_not_lt h2) (le_of_not_lt h1)
          rw [if_neg h1, if_neg h2] at hst
          rw [if_neg h2, if_neg h1] at hts
          rw [hab, strLt_connex s t hst hts]

theorem strLt_false_trans {s t u : List Char} (hts : strLt t s = false)
    (hut : strLt u t = false) : strLt u s = false := by
  cases h : strLt u s with
  | false => rfl
  | true =>
      exfalso
      by_cases h2 : strLt t u = true
      · have := strLt_trans t u s h2 h
        rw [hts] at this
        exact Bool.noConfusion this
      · have hut' : u = t := strLt_connex u t hut (by
          cases h3 : strLt t u with
          | false => rfl
          | true => exact absurd h3 h2)
        rw [hut'] at h
        rw [hts] at h
        exact Bool.noConfusion h

theorem string_eq_of_data_eq : ∀ {a b : String}, a.data = b.data → a = b
  | ⟨_⟩, ⟨_⟩, h => congrArg String.mk h

theorem keyLe_iff {a b : String} : keyLe a b ↔ strLt b.data a.data = false := by
  unfold keyLe localeCompare
  by_cases hab : strLt a.data b.data = true
  · simp [hab, strLt_asymm _ _ hab]
  · by_cases hba : strLt b.data a.data = true
    · simp [hab, hba]
    · simp [hab, hba]

theorem keyLe_trans {a b c : String} (hab : keyLe a b) (hbc : keyLe b c) : keyLe a c :=
  keyLe_iff.2 (strLt_false_trans (keyLe_iff.1 hab) (keyLe_iff.1 hbc))

theorem keyLe_total (a b : String) : keyLe a b ∨ keyLe b a := by
  rw [keyLe_iff, keyLe_iff]
  cases h1 : strLt b.data a.data with
  | false => exact Or.inl rfl
  | true => exact Or.inr (strLt_asymm _ _ h1)

theorem keyLe_antisymm {a b : String} (hab : keyLe a b) (hba : keyLe b a) : a = b :=
  string_eq_of_data_eq (strLt_connex _ _ (keyLe_iff.1 hba) (keyLe_iff.1 hab))

instance : IsTrans String keyLe := ⟨fun _ _ _ => keyLe_trans⟩

instance : IsTotal String keyLe := ⟨keyLe_total⟩

instance : IsAntisymm String keyLe := ⟨fun _ _ => keyLe_antisymm⟩

instance : IsTrans ComparisonRow rowLe := ⟨fun _ _ _ => keyLe_trans⟩

instance : IsTotal ComparisonRow rowLe := ⟨fun x y => keyLe_total x.property y.property⟩

/-! ### Deduplication lemmas -/

theorem mem_dedupAux :
    ∀ (l seen : List String) (x : String),
      x ∈ dedupAux l seen ↔ x ∈ l ∧ x ∉ seen
  | [], seen, x => by simp [dedupAux]
  | a :: l, seen, x => by
      by_cases h : a ∈ seen
      · rw [dedupAux, if_pos h, mem_dedupAux l seen x]
        constructor
        · exact fun hx => ⟨List.mem_cons_of_mem a hx.1, hx.2⟩
        · rintro ⟨hx1, hx2⟩
          rcases List.mem_cons.1 hx1 with rfl | hx1
          · exact absurd h hx2
          · exact ⟨hx1, hx2⟩
      · rw [dedupAux, if_neg h]
        rw [List.mem_cons, mem_dedupAux l (a :: seen) x]
        constructor
        · rintro (rfl | ⟨hx1, hx2⟩)
          · exact ⟨List.mem_cons_self x l, h⟩
          · exact ⟨List.mem_cons_of_mem a hx1,
              fun hs => hx2 (List.mem_cons_of_mem a hs)⟩
        · rintro ⟨hx1, hx2⟩
          rcases List.mem_cons.1 hx1 with rfl | hx1
          · exact Or.inl rfl
          · by_cases hxa : x = a
            · exact Or.inl hxa
            · exact Or.inr ⟨hx1, by simp [List.mem_cons, hxa, hx2]⟩

theorem nodup_dedupAux : ∀ (l seen : List String), (dedupAux l seen).Nodup
  | [], _ => List.nodup_nil
  | a :: l, seen => by
      by_cases h : a ∈ seen
      · rw [dedupAux, if_pos h]
        exact nodup_dedupAux l seen
      · rw [dedupAux, if_neg h]
        rw [List.nodup_cons]
        refine ⟨fun hmem => ?_, nodup_dedupAux l (a :: seen)⟩
        exact ((mem_dedupAux l (a :: seen) a).1 hmem).2 (List.mem_cons_self a seen)

theorem mem_dedupKeys {l : List String} {x : String} :
    x ∈ dedupKeys l ↔ x ∈ l := by
  rw [dedupKeys, mem_dedupAux]
  simp

theorem nodup_dedupKeys (l : List String) : (dedupKeys l).Nodup :=
  nodup_dedupAux l []

/-! ### Sorting lemmas -/

theorem orderedInsert_map {α β : Type} (r : α → α → Prop) (s : β → β → Prop)
    [DecidableRel r] [DecidableRel s] (f : α → β)
    (hf : ∀ x y, s (f x) (f y) ↔ r x y) (a : α) :
    ∀ l : List α,
      List.orderedInsert s (f a) (l.map f) = (List.orderedInsert r a l).map f
  | [] => rfl
  | b :: l => by
      rw [List.map_cons, List.orderedInsert, List.orderedInsert]
      by_cases h : r a b
      · rw [if_pos ((hf a b).2 h), if_pos h, List.map_cons, List.map_cons]
      · rw [if_neg (fun hs => h ((hf a b).1 hs)), if_neg h, List.map_cons,
          orderedInsert_map r s f hf a l]

theorem insertionSort_map {α β : Type} (r : α → α → Prop) (s : β → β → Prop)
    [DecidableRel r] [DecidableRel s] (f : α → β)
    (hf : ∀ x y, s (f x) (f y) ↔ r x y) :
    ∀ l : List α,
      List.insertionSort s (l.map f) = (List.insertionSort r l).map f
  | [] => rfl
  | a :: l => by
      rw [List.map_cons, List.insertionSort, List.insertionSort,
        insertionSort_map r s f hf l, orderedInsert_map r s f hf a]

theorem mkRow_property (c1 c2 : Record) (k : String) :
    (mkRow c1 c2 k).property = k := rfl

/-- The function `compareMetadata` seen as sorting the key universe and then building
one row per key. -/
theorem compareMetadata_eq_sortKeys (c1 c2 : Record) :
    compareMetadata c1 c2 =
      (List.insertionSort keyLe (allKeys c1 c2)).map (mkRow c1 c2) := by
  rw [compareMetadata]
  exact insertionSort_map keyLe rowLe (mkRow c1 c2) (fun x y => Iff.rfl) (allKeys c1 c2)

/-- The row transformation described by §8 of the spec: swap the two value
columns and exchange the `added` and `removed` classifications. -/
def flipRow (row : ComparisonRow) : ComparisonRow :=
  ⟨row.property, row.value2, row.value1,
    match row.status with
    | .added => .removed
    | .removed => .added
    | s => s⟩

theorem mkRow_flip (c1 c2 : Record) (k : String) :
    mkRow c2 c1 k = flipRow (mkRow c1 c2 k) := by
  rcases h1 : extract c1 k with _ | v1 <;> rcases h2 : extract c2 k with _ | v2
  · simp [mkRow, flipRow, h1, h2]
  · simp [mkRow, flipRow, h1, h2]
  · simp [mkRow, flipRow, h1, h2]
  · by_cases hv : v1 = v2
    · simp [mkRow, flipRow, h1, h2, hv]
    · simp [mkRow, flipRow, h1, h2, hv, Ne.symm hv]

theorem allKeys_perm (c1 c2 : Record) :
    List.Perm (allKeys c1 c2) (allKeys c2 c1) :=
  (List.perm_ext_iff_of_nodup (nodup_dedupKeys _) (nodup_dedupKeys _)).2
    (fun a => by
      simp only [allKeys, mem_dedupKeys, List.mem_append]
      tauto)

theorem sortKeys_comm (c1 c2 : Record) :
    List.insertionSort keyLe (allKeys c1 c2) =
      List.insertionSort keyLe (allKeys c2 c1) :=
  List.eq_of_perm_of_sorted
    (((List.perm_insertionSort keyLe _).trans (allKeys_perm c1 c2)).trans
      (List.perm_insertionSort keyLe _).symm)
    (List.sorted_insertionSort keyLe _)
    (List.sorted_insertionSort keyLe _)

/-- C1: on the records `a = {id:"1", params:{type:"pipe"}}` and
`b = {id:"2", params:{type:"pipe", label:"X"}}`, `compare(a, b)` returns
exactly the three rows (id, changed), (label, added), (type, same), in
that order with the stated value columns. -/
theorem compare_worked_example :
    compareMetadata recA recB =
      [⟨"id", "1", "2", .changed⟩,
       ⟨"label", "N/A", "X", .added⟩,
       ⟨"type", "pipe", "pipe", .same⟩] := by decide

/-- C4: swapping the two records turns each row of the comparison into the
same-property row with the value columns swapped and the `added` and
`removed` classifications exchanged, while `changed` and `same` rows keep
their classification: `compare(b, a)` is the row-wise flip of
`compare(a, b)`. -/
theorem compareMetadata_swap (c1 c2 : Record) :
    compareMetadata c2 c1 = (compareMetadata c1 c2).map flipRow := by
  rw [compareMetadata_eq_sortKeys, compareMetadata_eq_sortKeys, List.map_map,
    sortKeys_comm c2 c1]
  exact List.map_congr_left (fun k _ => mkRow_flip c1 c2 k)

/-- C5: the output of `compare` is sorted ascending on the `property`
column by the (modelled) locale comparator, and `compare` is a pure
function of its two records, so recomputation returns an identical row
sequence. -/
theorem compareMetadata_sorted_deterministic (c1 c2 : Record) :
    List.Sorted rowLe (compareMetadata c1 c2) ∧
      compareMetadata c1 c2 = compareMetadata c1 c2 :=
  ⟨List.sorted_insertionSort rowLe _, rfl⟩

/-- C2: adding to a selection that already holds exactly two records
evicts the oldest: the result is exactly previous-second-then-new-record;
adding to a selection of fewer than two records appends at the end. -/
theorem addToCompare_spec :
    (∀ r1 r2 x : Record, addToCompare [r1, r2] x = [r2, x]) ∧
      (∀ (sel : List Record) (x : Record), sel.length < 2 →
        addToCompare sel x = sel ++ [x]) := by
  constructor
  · intro r1 r2 x
    rfl
  · intro sel x h
    rw [addToCompare, dif_neg (by omega)]

/-- C2 witness: appending to the one-record selection `[recA]`. -/
theorem addToCompare_spec_witness :
    ([recA] : List Record).length < 2 ∧ addToCompare [recA] recB = [recA, recB] :=
  ⟨by decide, addToCompare_spec.2 [recA] recB (by decide)⟩

theorem step_length_le {sel : List Record} (h : sel.length ≤ 2) (op : Op) :
    (step sel op).length ≤ 2 := by
  cases op with
  | add c =>
      rw [step, addToCompare]
      by_cases h2 : sel.length ≥ 2
      · rw [dif_pos h2]
        simp
      · rw [dif_neg h2]
        simp
        omega
  | remove cid =>
      exact le_trans (List.length_filter_le _ _) h
  | clear =>
      simp [step, clearSelection]

theorem foldl_step_length :
    ∀ (ops : List Op) (sel : List Record), sel.length ≤ 2 →
      (ops.foldl step sel).length ≤ 2
  | [], _, h => h
  | op :: ops, sel, h => by
      rw [List.foldl_cons]
      exact foldl_step_length ops (step sel op) (step_length_le h op)

/-- C3: starting from the empty selection, after any finite sequence of
add, remove and clear actions the selection holds at most two records. -/
theorem runOps_length_le (ops : List Op) : (runOps ops).length ≤ 2 :=
  foldl_step_length ops [] (by simp)

/-- Record with `id` "1", a `createdAt` field, and empty `params`. -/
def cexA : Record := ⟨[("id", "1"), ("createdAt", "t")], .obj []⟩

/-- Record with `id` "1", no `createdAt`, and empty `params`. -/
def cexB : Record := ⟨[("id", "1")], .obj []⟩

/-- C6 counterexample: two records with identical `params` mappings and
identical `id` values whose comparison still contains a non-`same` row
(their `createdAt` top-level values differ, and `createdAt` is compared
top-level). -/
theorem compare_same_params_counterexample :
    cexA.params = cexB.params ∧ extract cexA "id" = extract cexB "id" ∧
      ((compareMetadata cexA cexB).all fun row => row.status == Status.same)
        = false := by decide

theorem extract_congr {c1 c2 : Record} (hp : c1.params = c2.params)
    (hid : extract c1 "id" = extract c2 "id")
    (hca : extract c1 "createdAt" = extract c2 "createdAt")
    (hua : extract c1 "updatedAt" = extract c2 "updatedAt") (k : String) :
    extract c1 k = extract c2 k := by
  by_cases hk : (k == "id" || k == "createdAt" || k == "updatedAt") = true
  · have : (k = "id" ∨ k = "createdAt") ∨ k = "updatedAt" := by
      simpa using hk
    have : k = "id" ∨ k = "createdAt" ∨ k = "updatedAt" := by tauto
    rcases this with rfl | rfl | rfl
    · exact hid
    · exact hca
    · exact hua
  · rw [extract, extract, if_neg hk, if_neg hk, hp]

/-- C6 amended: for records with identical `params` mappings and identical
extracted `id`, `createdAt` and `updatedAt` values, every comparison row
has status `same` (the original claim omitted the `createdAt`/`updatedAt`
agreement, which the top-level extraction rule also compares). -/
theorem compare_same_params_amended (c1 c2 : Record)
    (hp : c1.params = c2.params)
    (hid : extract c1 "id" = extract c2 "id")
    (hca : extract c1 "createdAt" = extract c2 "createdAt")
    (hua : extract c1 "updatedAt" = extract c2 "updatedAt") :
    ∀ row ∈ compareMetadata c1 c2, row.status = Status.same := by
  intro row hrow
  rw [compareMetadata, List.mem_insertionSort] at hrow
  rcases List.mem_map.1 hrow with ⟨k, _, rfl⟩
  have he := extract_congr hp hid hca hua k
  rcases h2 : extract c2 k with _ | v
  · rw [h2] at he
    simp [mkRow, he, h2]
  · rw [h2] at he
    simp [mkRow, he, h2]

/-- C6 amended witness: comparing `recA` with itself yields only `same`
rows; instantiated at the `id` row. -/
theorem compare_same_params_amended_witness :
    (⟨"id", "1", "1", Status.same⟩ : ComparisonRow).status = Status.same :=
  compare_same_params_amended recA recA rfl rfl rfl rfl
    ⟨"id", "1", "1", Status.same⟩ (by decide)

theorem isSelected_eq_false_iff {sel : List Record} {cid : Option String} :
    isSelected sel cid = false ↔ ∀ c ∈ sel, recId c ≠ cid := by
  rw [isSelected]
  simp

theorem NoDupIds_add {sel : List Record} {c : Record}
    (hnd : NoDupIds sel) (hns : isSelected sel (recId c) = false) :
    NoDupIds (addToCompare sel c) := by
  have hall : ∀ x ∈ sel, recId x ≠ recId c := isSelected_eq_false_iff.1 hns
  rw [addToCompare]
  by_cases h2 : sel.length ≥ 2
  · rw [dif_pos h2]
    have hmem : sel.get ⟨1, by omega⟩ ∈ sel := sel.get_mem 1 (by omega)
    simp [NoDupIds, List.nodup_cons]
    exact hall _ hmem
  · rw [dif_neg h2]
    rw [NoDupIds, List.map_append, List.nodup_append]
    refine ⟨hnd, List.nodup_singleton _, ?_⟩
    intro x hx hy
    rcases List.mem_map.1 hx with ⟨r, hr, rfl⟩
    rcases List.mem_singleton.1 hy with h
    exact hall r hr h

theorem NoDupIds_remove {sel : List Record} (hnd : NoDupIds sel)
    (cid : Option String) : NoDupIds (removeFromCompare sel cid) :=
  ((List.filter_sublist sel).map recId).nodup hnd

theorem foldl_step_nodup :
    ∀ (ops : List Op) (sel : List Record),
      NoDupIds sel → disciplined sel ops = true →
      NoDupIds (ops.foldl step sel)
  | [], _, h, _ => h
  | op :: ops, sel, h, hd => by
      rw [List.foldl_cons]
      cases op with
      | add c =>
          rw [disciplined, Bool.and_eq_true] at hd
          refine foldl_step_nodup ops _ ?_ hd.2
          have h1 : isSelected sel (recId c) = false := by
            have := hd.1
            simpa using this
          exact NoDupIds_add h h1
      | remove cid =>
          rw [disciplined] at hd
          exact foldl_step_nodup ops _ (NoDupIds_remove h cid) hd
      | clear =>
          rw [disciplined] at hd
          exact foldl_step_nodup ops _ List.nodup_nil hd

/-- C7: under the caller discipline that no add is issued for a record
whose id is already selected, every action sequence from the empty
selection preserves the no-duplicate-id invariant. -/
theorem runOps_nodupIds (ops : List Op) (hd : disciplined [] ops = true) :
    NoDupIds (runOps ops) :=
  foldl_step_nodup ops [] List.nodup_nil hd

/-- C7 witness: add two distinct records then remove one. -/
theorem runOps_nodupIds_witness :
    disciplined [] [.add recA, .add recB, .remove (some "1")] = true ∧
      NoDupIds (runOps [.add recA, .add recB, .remove (some "1")]) :=
  ⟨by decide, runOps_nodupIds [.add recA, .add recB, .remove (some "1")] (by decide)⟩

/-- C8: on a selection satisfying the §3 invariant that contains the given
id, remove decreases the length by exactly one and the remaining records
keep their relative order (the result is a sublist of the original); on a
selection not containing the id, remove is the identity. -/
theorem removeFromCompare_spec :
    (∀ (sel : List Record) (cid : Option String), sel.length ≤ 2 →
        NoDupIds sel → isSelected sel cid = true →
        (removeFromCompare sel cid).length + 1 = sel.length ∧
          List.Sublist (removeFromCompare sel cid) sel) ∧
      (∀ (sel : List Record) (cid : Option String), isSelected sel cid = false →
        removeFromCompare sel cid = sel) := by
  constructor
  · intro sel cid hlen hnd hsel
    refine ⟨?_, List.filter_sublist sel⟩
    rcases sel with _ | ⟨a, _ | ⟨b, _ | ⟨c, rest⟩⟩⟩
    · simp [isSelected] at hsel
    · have ha : recId a = cid := by simpa [isSelected] using hsel
      simp [removeFromCompare, ha]
    · have hab : recId a ≠ recId b := by
        simpa [NoDupIds, List.nodup_cons] using hnd
      have hor : recId a = cid ∨ recId b = cid := by
        simpa [isSelected] using hsel
      rcases hor with h | h
      · have hb : recId b ≠ cid := fun hbc => hab (h.trans hbc.symm)
        simp [removeFromCompare, h, hb]
      · have ha : recId a ≠ cid := fun hac => hab (hac.trans h.symm)
        simp [removeFromCompare, h, ha]
    · exfalso
      simp at hlen
  · intro sel cid hsel
    have hall : ∀ c ∈ sel, recId c ≠ cid := isSelected_eq_false_iff.1 hsel
    rw [removeFromCompare, List.filter_eq_self]
    intro c hc
    simp [hall c hc]

/-- C8 witness: removing id "1" from the full selection `[recA, recB]`. -/
theorem removeFromCompare_spec_witness :
    (removeFromCompare [recA, recB] (some "1")).length + 1 =
        ([recA, recB] : List Record).length ∧
      List.Sublist (removeFromCompare [recA, recB] (some "1")) [recA, recB] :=
  removeFromCompare_spec.1 [recA, recB] (some "1") (by decide) (by decide) (by decide)

/-- Whether the `params` property holds an object. -/
def isObjectParams : Params → Bool
  | .obj _ => true
  | _ => false

/-- Values of `params` that are absent, null, or a non-string primitive. -/
def primNonString : Params → Bool
  | .undef => true
  | .null => true
  | .num _ => true
  | .bool _ => true
  | _ => false

/-- Record whose `params` is the primitive string "ab". -/
def recS : Record := ⟨[("id", "1")], .str "ab"⟩

/-- Record with absent `params`. -/
def recP : Record := ⟨[("id", "2")], .undef⟩

/-- C9 counterexample: a record whose `params` is the non-object value
`"ab"` contributes the string's index keys "0" and "1" to the key
universe (via `Object.keys("ab")`), so a malformed non-object `params`
is not always treated as contributing no keys. -/
theorem nonObject_params_counterexample :
    isObjectParams recS.params = false ∧ "0" ∈ allKeys recS recP ∧
      "0" ∉ topKeys recS ++ topKeys recP := by decide

theorem keysOf_primNonString {p : Params} (h : primNonString p = true) :
    keysOf p = [] := by
  cases p <;> first | rfl | exact Bool.noConfusion h

theorem plookup_primNonString {p : Params} (h : primNonString p = true)
    (k : String) : plookup p k = none := by
  cases p <;> first | rfl | exact Bool.noConfusion h

/-- C9 amended: a `params` value that is absent, null, or a non-string
primitive (number, boolean) contributes no keys to the key universe and
the comparison is the same as with `params` absent; a non-object `params`
that is a non-empty string, however, contributes its character-index keys
(see the counterexample), so "not an object" alone does not imply "no
keys contributed".  Totality (never raising) is inherent in the model. -/
theorem nonObject_params_amended (c1 c2 : Record)
    (h1 : primNonString c1.params = true) (h2 : primNonString c2.params = true) :
    allKeys c1 c2 = dedupKeys (topKeys c1 ++ topKeys c2) ∧
      compareMetadata c1 c2 =
        compareMetadata ⟨c1.topLevel, .undef⟩ ⟨c2.topLevel, .undef⟩ := by
  have hk1 := keysOf_primNonString h1
  have hk2 := keysOf_primNonString h2
  have he1 : ∀ k, extract c1 k = extract ⟨c1.topLevel, .undef⟩ k := by
    intro k
    rw [extract, extract]
    by_cases hk : (k == "id" || k == "createdAt" || k == "updatedAt") = true
    · rw [if_pos hk, if_pos hk]
    · rw [if_neg hk, if_neg hk, plookup_primNonString h1 k]
      rfl
  have he2 : ∀ k, extract c2 k = extract ⟨c2.topLevel, .undef⟩ k := by
    intro k
    rw [extract, extract]
    by_cases hk : (k == "id" || k == "createdAt" || k == "updatedAt") = true
    · rw [if_pos hk, if_pos hk]
    · rw [if_neg hk, if_neg hk, plookup_primNonString h2 k]
      rfl
  have hak : allKeys c1 c2 = allKeys ⟨c1.topLevel, .undef⟩ ⟨c2.topLevel, .undef⟩ := by
    rw [allKeys, allKeys, hk1, hk2]
    rfl
  refine ⟨?_, ?_⟩
  · rw [allKeys, hk1, hk2]
    simp
  · rw [compareMetadata, compareMetadata, hak]
    congr 1
    apply List.map_congr_left
    intro k _
    simp only [mkRow, he1 k, he2 k]

/-- Record whose `params` is the primitive number 5. -/
def recN : Record := ⟨[("id", "1")], .num 5⟩

/-- Record whose `params` is null. -/
def recU : Record := ⟨[("id", "2")], .null⟩

/-- C9 amended witness: comparing a number-`params` record against a
null-`params` record behaves exactly as with `params` absent. -/
theorem nonObject_params_amended_witness :
    primNonString recN.params = true ∧
      (allKeys recN recU = dedupKeys (topKeys recN ++ topKeys recU) ∧
        compareMetadata recN recU =
          compareMetadata ⟨recN.topLevel, .undef⟩ ⟨recU.topLevel, .undef⟩) :=
  ⟨by decide, nonObject_params_amended recN recU (by decide) (by decide)⟩

/-- C10: a key of the key universe whose extracted value is absent in both
records still produces a row, with both value columns "N/A" and status
`same`. -/
theorem compare_both_absent (c1 c2 : Record) (k : String)
    (hk : k ∈ allKeys c1 c2) (h1 : extract c1 k = none)
    (h2 : extract c2 k = none) :
    (⟨k, "N/A", "N/A", Status.same⟩ : ComparisonRow) ∈ compareMetadata c1 c2 := by
  have hrow : mkRow c1 c2 k = ⟨k, "N/A", "N/A", Status.same⟩ := by
    simp [mkRow, h1, h2]
  rw [compareMetadata, List.mem_insertionSort, ← hrow]
  exact List.mem_map_of_mem (mkRow c1 c2) hk

/-- Record with a top-level field `foo` outside the allowlist and absent
`params`. -/
def recW : Record := ⟨[("id", "1"), ("foo", "x")], .undef⟩

/-- C10 witness: the key "foo" is in the key universe of `recW` and
`recP`, is absent from both extractions, and yields an N/A–N/A `same`
row. -/
theorem compare_both_absent_witness :
    "foo" ∈ allKeys recW recP ∧
      (⟨"foo", "N/A", "N/A", Status.same⟩ : ComparisonRow)
        ∈ compareMetadata recW recP :=
  ⟨by decide, compare_both_absent recW recP "foo" (by decide) rfl rfl⟩
